import Mathlib

/-!
Shallow embedding of `MLbibs/start01/process_images.py`, a batch pipeline that
reads zip archives of images, runs a person detector on each decoded image and
writes either person crops (one per detected box, into `output/Person`) or the
whole image (into `output/No_Person`).

External components (the image codec `cv2.imdecode`, the YOLO detector, the
archive reader) are black boxes: they enter the model as parameters (`Env`,
`ZipData`, `Entry.readResult`).  The worker's own control flow, filtering,
naming, cropping and error handling are translated line by line from the
source.  Side effects (model load, log lines, file writes) are modelled as an
event trace.
-/

/-! ### Path helpers (`os.path.basename`, `os.path.splitext`, `os.path.join`) -/

/-- `os.path.basename`: the part of a path after the last `/`. -/
def basenameChars (cs : List Char) : List Char :=
  (cs.reverse.takeWhile (fun c => c ≠ '/')).reverse

/-- The root part of `os.path.splitext` for a separator-free name: everything
before the last dot, except that a name whose characters before that dot are
all dots (for example `.jpg` or `..py`) is not split. -/
def stemChars (cs : List Char) : List Char :=
  let r := cs.reverse
  let ext := r.takeWhile (fun c => c ≠ '.')
  if ext.length = r.length then cs
  else if ((r.drop (ext.length + 1)).reverse).all (fun c => c = '.') then cs
  else (r.drop (ext.length + 1)).reverse

/-- `os.path.splitext(os.path.basename(zip_path))[0]`, as in lines 58 and 64. -/
def zipStemChars (zipPath : String) : List Char :=
  stemChars (basenameChars zipPath.data)

/-- `os.path.join` for the relative paths used by the script. -/
def joinPath (dir fname : String) : String :=
  String.mk (dir.data ++ '/' :: fname.data)

def OUTPUT_DIR : String := "output"

def PERSON_DIR : String := joinPath OUTPUT_DIR "Person"

def NO_PERSON_DIR : String := joinPath OUTPUT_DIR "No_Person"

/-! ### Decimal rendering of the detection index (the `{i}` of the f-string) -/

/-- One decimal digit character. -/
def digitChar (d : Nat) : Char :=
  if d = 0 then '0' else if d = 1 then '1' else if d = 2 then '2'
  else if d = 3 then '3' else if d = 4 then '4' else if d = 5 then '5'
  else if d = 6 then '6' else if d = 7 then '7' else if d = 8 then '8' else '9'

/-- Decimal digits of `n`, most significant first; `fuel` bounds the number of
division steps (`fuel = n` always suffices). -/
def natDigitsAux : Nat → Nat → List Char
  | _, 0 => ['0']
  | 0, _ => []
  | fuel + 1, n =>
    if n < 10 then [digitChar n]
    else natDigitsAux fuel (n / 10) ++ [digitChar (n % 10)]

/-- Decimal representation of a natural number, most significant digit first,
as Python renders a nonnegative `int` in an f-string. -/
def natDigits (n : Nat) : List Char := natDigitsAux n n

/-- Numeric value of one digit character. -/
def digitVal (c : Char) : Nat := c.toNat - 48

/-- Numeric value of a digit string. -/
def digitsVal (l : List Char) : Nat :=
  l.foldl (fun a c => 10 * a + digitVal c) 0

/-! ### Filenames (lines 57-59 and 63-65) -/

/-- Line 59: `f"{zip_name}_{base_name}_person_{i}.jpg"` where `base_name` is
the extension-stripped basename of the entry and `zip_name` the stem of the
archive path. -/
def personFilename (zipPath imageName : String) (i : Nat) : String :=
  String.mk (zipStemChars zipPath ++ '_' ::
    (stemChars (basenameChars imageName.data) ++ '_' ::
      ("person_".data ++ (natDigits i ++ ".jpg".data))))

/-- Line 65: `f"{zip_name}_{base_name}"` where `base_name` here is
`os.path.basename(image_name)` with its extension kept. -/
def noPersonFilename (zipPath imageName : String) : String :=
  String.mk (zipStemChars zipPath ++ '_' :: basenameChars imageName.data)

/-- Full path of a person-crop output file. -/
def personPath (zipPath imageName : String) (i : Nat) : String :=
  joinPath PERSON_DIR (personFilename zipPath imageName i)

/-- Full path of a whole-image output file. -/
def noPersonPath (zipPath imageName : String) : String :=
  joinPath NO_PERSON_DIR (noPersonFilename zipPath imageName)

/-! ### Data model -/

/-- A decoded pixel buffer: rows of pixel values. -/
abbrev Img := List (List Nat)

/-- A detection box, `box.xyxy[0].astype(int)` of line 54 (coordinates are
nonnegative for boxes inside the image). -/
structure Box where
  x1 : Nat
  y1 : Nat
  x2 : Nat
  y2 : Nat
deriving DecidableEq

/-- Line 55: `img[y1:y2, x1:x2]`, numpy row/column slicing with clamping. -/
def crop (img : Img) (b : Box) : Img :=
  ((img.drop b.y1).take (b.y2 - b.y1)).map
    (fun row => (row.drop b.x1).take (b.x2 - b.x1))

/-- One archive member: its name and the outcome of `zip_ref.read` on it
(reading a corrupt member raises, which line 68 catches). -/
structure Entry where
  name : String
  readResult : Except String (List Nat)

/-- Outcome of opening one archive: its entry list, or the exception the
`zipfile` module raises (lines 70-73). -/
inductive ZipData where
  | ok (entries : List Entry)
  | badZip
  | ioError (msg : String)

/-- The external black boxes: `cv2.imdecode` (`none` models a decode failure,
line 41) and the YOLO model restricted to the person class (an `error` models
an exception escaping `model.predict`, caught on line 68). -/
structure Env where
  decode : List Nat → Option Img
  detect : Img → Except String (List Box)

/-- Observable side effects of the pipeline, in program order. -/
inductive Event where
  | modelLoad
  | logInfo (msg : String)
  | logWarning (msg : String)
  | logError (msg : String)
  | write (dir : String) (fname : String) (content : Img)
deriving DecidableEq

/-! ### The worker (`process_zip_archive`, lines 22-75) -/

/-- Python `enumerate` starting from `i`. -/
def enumFrom (i : Nat) : List α → List (Nat × α)
  | [] => []
  | a :: as => (i, a) :: enumFrom (i + 1) as

/-- Line 32: keep entries whose lowercased name ends in an image extension. -/
def isImageName (s : String) : Bool :=
  let l := s.data.map Char.toLower
  (".png".data.isSuffixOf l) || (".jpg".data.isSuffixOf l) ||
    (".jpeg".data.isSuffixOf l)

def decodeFailMsg (imageName zipPath : String) : String :=
  "Could not decode image: " ++ imageName ++ " in " ++ zipPath

def entryErrMsg (imageName zipPath e : String) : String :=
  "Error processing image " ++ imageName ++ " in " ++ zipPath ++ ": " ++ e

def badZipMsg (zipPath : String) : String :=
  "Bad zip file: " ++ zipPath

def workerErrMsg (zipPath e : String) : String :=
  "Unhandled error in worker for " ++ zipPath ++ ": " ++ e

/-- Lines 36-66, the body of the per-entry `try`: read, decode, infer, then
either write one crop per box (lines 50-60) or the whole image (lines 62-66).
An `error` result is an exception reaching the `except` of line 68.  The
`person_detected` flag of lines 49/53/62 is true exactly when the box list is
non-empty, so the two writes are rendered as a match on that list. -/
def processEntryBody (env : Env) (zipPath : String) (entry : Entry) :
    Except String (List Event) :=
  match entry.readResult with
  | .error e => .error e
  | .ok bytes =>
    match env.decode bytes with
    | none => .ok [Event.logWarning (decodeFailMsg entry.name zipPath)]
    | some img =>
      match env.detect img with
      | .error e => .error e
      | .ok boxes =>
        match boxes with
        | [] => .ok [Event.write NO_PERSON_DIR
                      (noPersonFilename zipPath entry.name) img]
        | _ => .ok ((enumFrom 0 boxes).map (fun ib =>
                 Event.write PERSON_DIR
                   (personFilename zipPath entry.name ib.1)
                   (crop img ib.2)))

/-- Lines 35-69: the per-entry `try`/`except`, which turns any exception into
one error log line and continues with the next entry. -/
def processEntry (env : Env) (zipPath : String) (entry : Entry) : List Event :=
  match processEntryBody env zipPath entry with
  | .ok evs => evs
  | .error e => [Event.logError (entryErrMsg entry.name zipPath e)]

/-- Lines 32-34: the filtered entry list the worker iterates over. -/
def imageEntries (entries : List Entry) : List Entry :=
  entries.filter (fun e => isImageName e.name)

/-- Lines 31-69: the loop over the archive's image entries. -/
def processArchiveEntries (env : Env) (zipPath : String)
    (entries : List Entry) : List Event :=
  (imageEntries entries).flatMap (processEntry env zipPath)

/-- An exception escaping the outer `with zipfile.ZipFile` block. -/
inductive ZipExc where
  | badZipFile
  | other (msg : String)

/-- Lines 30-69, the archive-level `try` body: either the events of the entry
loop, or the exception that opening/iterating the archive raised. -/
def archiveBody (env : Env) (zipPath : String) (zd : ZipData) :
    Except ZipExc (List Event) :=
  match zd with
  | .ok entries => .ok (processArchiveEntries env zipPath entries)
  | .badZip => .error .badZipFile
  | .ioError m => .error (.other m)

/-- Lines 22-75, `process_zip_archive`: load the model (line 27, before the
`try`), run the archive body, catch `BadZipFile` (line 70) and any other
exception (line 72) as one error log each, and return the input path. -/
def process_zip_archive (env : Env) (zipPath : String) (zd : ZipData) :
    List Event × String :=
  let evs := match archiveBody env zipPath zd with
    | .ok evs => evs
    | .error .badZipFile => [Event.logError (badZipMsg zipPath)]
    | .error (.other e) => [Event.logError (workerErrMsg zipPath e)]
  (Event.modelLoad :: evs, zipPath)

/-! ### The orchestrator (`main`, lines 77-99) -/

/-- Line 97: each archive task runs `process_zip_archive` once; the events of
a (sub)sequence of tasks handled by one worker process, in order. -/
def processRunEvents (env : Env) (tasks : List (String × ZipData)) :
    List Event :=
  tasks.flatMap (fun t => (process_zip_archive env t.1 t.2).1)

def noZipMsg : String := "No ZIP files found in input directory."

/-- Lines 77-99, `main`: directory setup, the empty-input check of lines
88-90, and the pool run.  `tasks` is the glob result paired with what opening
each archive yields. -/
def mainEvents (env : Env) (tasks : List (String × ZipData)) : List Event :=
  Event.logInfo "Creating output directories..." ::
    (if tasks.isEmpty then [Event.logError noZipMsg]
     else Event.logInfo "Found ZIP files to process." ::
       (processRunEvents env tasks ++ [Event.logInfo "Processing complete."]))

/-- The pool map with a worker raise surfacing as an `error`: each task is
the value `process_zip_archive` returns, which is total because the worker
catches every archive-level and entry-level exception internally. -/
def poolMapE (env : Env) :
    List (String × ZipData) → Except String (List (List Event))
  | [] => .ok []
  | t :: ts => do
    let evs ← Except.ok (ε := String) (process_zip_archive env t.1 t.2).1
    let rest ← poolMapE env ts
    return evs :: rest

/-- `main` with any uncaught worker exception surfacing as an `error`. -/
def mainE (env : Env) (tasks : List (String × ZipData)) :
    Except String (List Event) :=
  if tasks.isEmpty then .ok [Event.logError noZipMsg]
  else do
    let evss ← poolMapE env tasks
    return evss.flatten

/-- Process exit status: Python exits 0 when `main` returns, nonzero when an
exception escapes it. -/
def exitCode (env : Env) (tasks : List (String × ZipData)) : Nat :=
  match mainE env tasks with
  | .ok _ => 0
  | .error _ => 1

/-! ### Event observations -/

def isModelLoad (ev : Event) : Bool :=
  match ev with
  | .modelLoad => true
  | _ => false

def isWriteEvent (ev : Event) : Bool :=
  match ev with
  | .write _ _ _ => true
  | _ => false

def isPersonWrite (ev : Event) : Bool :=
  match ev with
  | .write d _ _ => d == PERSON_DIR
  | _ => false

def isNoPersonWrite (ev : Event) : Bool :=
  match ev with
  | .write d _ _ => d == NO_PERSON_DIR
  | _ => false

def isErrorLog (ev : Event) : Bool :=
  match ev with
  | .logError _ => true
  | _ => false

def isWarningLog (ev : Event) : Bool :=
  match ev with
  | .logWarning _ => true
  | _ => false

/-- The file writes of a trace, as full path / content pairs. -/
def writesOf (evs : List Event) : List (String × Img) :=
  evs.filterMap (fun ev =>
    match ev with
    | .write d f im => some (joinPath d f, im)
    | _ => none)

/-! ### The output directories as a filesystem (for idempotence) -/

/-- The two output directories, as a map from full path to file content. -/
abbrev FS := String → Option Img

/-- `cv2.imwrite`: create or overwrite the file at this path. -/
def applyWrite (fs : FS) (w : String × Img) : FS :=
  fun k => if k = w.1 then some w.2 else fs k

/-- Apply a list of writes in order. -/
def applyWrites (fs : FS) (ws : List (String × Img)) : FS :=
  ws.foldl applyWrite fs

/-- The last write to a given path in a list of writes, if any. -/
def lastW (ws : List (String × Img)) (k : String) : Option Img :=
  match ws with
  | [] => none
  | w :: rest =>
    match lastW rest k with
    | some c => some c
    | none => if k = w.1 then some w.2 else none

/-! ### Helper lemmas: decimal digits -/

theorem digitVal_digitChar {d : Nat} (h : d < 10) :
    digitVal (digitChar d) = d := by
  interval_cases d <;> rfl

theorem digitsVal_append_singleton (l : List Char) (c : Char) :
    digitsVal (l ++ [c]) = 10 * digitsVal l + digitVal c := by
  simp [digitsVal, List.foldl_append]

theorem digitsVal_natDigitsAux :
    ∀ fuel n, n ≤ fuel → digitsVal (natDigitsAux fuel n) = n := by
  intro fuel
  induction fuel with
  | zero =>
    intro n hn
    interval_cases n
    rfl
  | succ fuel ih =>
    intro n hn
    match n with
    | 0 => rfl
    | m + 1 =>
      show digitsVal (if m + 1 < 10 then [digitChar (m + 1)]
        else natDigitsAux fuel ((m + 1) / 10) ++ [digitChar ((m + 1) % 10)]) =
          m + 1
      split
      · rename_i hlt
        show 10 * 0 + digitVal (digitChar (m + 1)) = m + 1
        rw [digitVal_digitChar hlt]
        omega
      · rename_i hge
        rw [digitsVal_append_singleton,
            ih ((m + 1) / 10) (by omega),
            digitVal_digitChar (by omega)]
        omega

theorem digitsVal_natDigits (n : Nat) : digitsVal (natDigits n) = n :=
  digitsVal_natDigitsAux n n (Nat.le_refl n)

theorem natDigits_inj {a b : Nat} (h : natDigits a = natDigits b) : a = b := by
  have := congrArg digitsVal h
  rwa [digitsVal_natDigits, digitsVal_natDigits] at this

/-! ### Helper lemmas: splitting at an underscore -/

theorem append_sep_inj :
    ∀ (l1 l2 r1 r2 : List Char), '_' ∉ l1 → '_' ∉ l2 →
      l1 ++ '_' :: r1 = l2 ++ '_' :: r2 → l1 = l2 ∧ r1 = r2 := by
  intro l1
  induction l1 with
  | nil =>
    intro l2 r1 r2 _ h2 h
    cases l2 with
    | nil => simpa using h
    | cons d t2 =>
      rw [List.nil_append] at h
      injection h with hc _
      exact absurd (hc ▸ List.mem_cons_self d t2) h2
  | cons c t ih =>
    intro l2 r1 r2 h1 h2 h
    cases l2 with
    | nil =>
      rw [List.nil_append] at h
      injection h with hc _
      exact absurd (hc ▸ List.mem_cons_self c t) h1
    | cons d t2 =>
      simp only [List.cons_append] at h
      injection h with hc ht
      have h1' : '_' ∉ t := fun hm => h1 (List.mem_cons_of_mem _ hm)
      have h2' : '_' ∉ t2 := fun hm => h2 (List.mem_cons_of_mem _ hm)
      obtain ⟨he, hr⟩ := ih t2 r1 r2 h1' h2' ht
      exact ⟨by rw [hc, he], hr⟩

theorem strData_inj {a b : String} (h : a.data = b.data) : a = b := by
  cases a
  cases b
  exact congrArg String.mk h

/-! ### Helper lemmas: filename injectivity -/

theorem personFilename_inj {z1 n1 : String} {i1 : Nat} {z2 n2 : String}
    {i2 : Nat}
    (hz1 : '_' ∉ zipStemChars z1) (hz2 : '_' ∉ zipStemChars z2)
    (hs1 : '_' ∉ stemChars (basenameChars n1.data))
    (hs2 : '_' ∉ stemChars (basenameChars n2.data)) :
    personFilename z1 n1 i1 = personFilename z2 n2 i2 ↔
      zipStemChars z1 = zipStemChars z2 ∧
        stemChars (basenameChars n1.data) = stemChars (basenameChars n2.data) ∧
        i1 = i2 := by
  constructor
  · intro h
    unfold personFilename at h
    injection h with hdata
    obtain ⟨hz, hrest⟩ :=
      append_sep_inj (zipStemChars z1) (zipStemChars z2) _ _ hz1 hz2 hdata
    obtain ⟨hs, htail⟩ :=
      append_sep_inj (stemChars (basenameChars n1.data))
        (stemChars (basenameChars n2.data)) _ _ hs1 hs2 hrest
    have hdig := List.append_cancel_right (List.append_cancel_left htail)
    exact ⟨hz, hs, natDigits_inj hdig⟩
  · intro ⟨hz, hs, hi⟩
    unfold personFilename
    rw [hz, hs, hi]

theorem noPersonFilename_inj {z1 n1 z2 n2 : String}
    (hz1 : '_' ∉ zipStemChars z1) (hz2 : '_' ∉ zipStemChars z2) :
    noPersonFilename z1 n1 = noPersonFilename z2 n2 ↔
      zipStemChars z1 = zipStemChars z2 ∧
        basenameChars n1.data = basenameChars n2.data := by
  constructor
  · intro h
    unfold noPersonFilename at h
    injection h with hdata
    exact append_sep_inj (zipStemChars z1) (zipStemChars z2) _ _ hz1 hz2 hdata
  · intro ⟨hz, hb⟩
    unfold noPersonFilename
    rw [hz, hb]

theorem joinPath_inj {d n1 n2 : String} (h : joinPath d n1 = joinPath d n2) :
    n1 = n2 := by
  unfold joinPath at h
  injection h with hdata
  have := List.append_cancel_left hdata
  injection this with _ htail
  exact strData_inj htail

theorem personPath_ne_noPersonPath (z1 n1 : String) (i1 : Nat)
    (z2 n2 : String) : personPath z1 n1 i1 ≠ noPersonPath z2 n2 := by
  intro h
  unfold personPath noPersonPath joinPath at h
  injection h with hdata
  have h7 := congrArg (fun l => l[7]?) hdata
  have e1 : (PERSON_DIR.data ++
      '/' :: (personFilename z1 n1 i1).data)[7]? = some 'P' := by
    rw [List.getElem?_append_left (by decide)]
    rfl
  have e2 : (NO_PERSON_DIR.data ++
      '/' :: (noPersonFilename z2 n2).data)[7]? = some 'N' := by
    rw [List.getElem?_append_left (by decide)]
    rfl
  simp only [e1, e2] at h7
  exact absurd (Option.some.inj h7) (by decide)

/-! ### C2: output path uniqueness -/

/-- C2, counterexample: two distinct entries of the same archive that sit in
different subdirectories but share a basename produce the same person-crop
output path, so a run really does write the same path twice (the claim says
this never happens). -/
theorem C2_counterexample :
    personPath "zip/a.zip" "d1/x.jpg" 0 = personPath "zip/a.zip" "d2/x.jpg" 0 ∧
    ("d1/x.jpg" : String) ≠ "d2/x.jpg" ∧
    ¬ ((writesOf (process_zip_archive
        ⟨fun _ => some [[0]], fun _ => Except.ok [⟨0, 0, 1, 1⟩]⟩
        "zip/a.zip"
        (ZipData.ok [⟨"d1/x.jpg", Except.ok []⟩,
                     ⟨"d2/x.jpg", Except.ok []⟩])).1).map Prod.fst).Nodup := by
  refine ⟨by decide, by decide, by decide⟩

/-- C2 (amended): output paths are unique per naming key, not per entry.  Two
person-crop paths coincide exactly when archive stem, extension-stripped entry
basename and detection index all coincide; two whole-image paths coincide
exactly when archive stem and entry basename coincide; a person-crop path
never equals a whole-image path.  The `_`-freeness hypotheses rule out
ambiguity of the `_` separators of the naming scheme. -/
theorem C2_output_path_unique (z1 n1 : String) (i1 : Nat) (z2 n2 : String)
    (i2 : Nat)
    (hz1 : '_' ∉ zipStemChars z1) (hz2 : '_' ∉ zipStemChars z2)
    (hs1 : '_' ∉ stemChars (basenameChars n1.data))
    (hs2 : '_' ∉ stemChars (basenameChars n2.data)) :
    (personPath z1 n1 i1 = personPath z2 n2 i2 ↔
      zipStemChars z1 = zipStemChars z2 ∧
        stemChars (basenameChars n1.data) = stemChars (basenameChars n2.data) ∧
        i1 = i2) ∧
    (noPersonPath z1 n1 = noPersonPath z2 n2 ↔
      zipStemChars z1 = zipStemChars z2 ∧
        basenameChars n1.data = basenameChars n2.data) ∧
    personPath z1 n1 i1 ≠ noPersonPath z2 n2 := by
  refine ⟨?_, ?_, personPath_ne_noPersonPath z1 n1 i1 z2 n2⟩
  · constructor
    · intro h
      exact (personFilename_inj hz1 hz2 hs1 hs2).1 (joinPath_inj h)
    · intro h
      unfold personPath
      rw [(personFilename_inj hz1 hz2 hs1 hs2).2 h]
  · constructor
    · intro h
      exact (noPersonFilename_inj hz1 hz2).1 (joinPath_inj h)
    · intro h
      unfold noPersonPath
      rw [(noPersonFilename_inj hz1 hz2).2 h]

/-- Witness for `C2_output_path_unique` at concrete archives and entries. -/
theorem C2_output_path_unique_witness :
    personPath "zip/a.zip" "x.jpg" 0 ≠ personPath "zip/b.zip" "y.png" 1 := by
  have h := C2_output_path_unique "zip/a.zip" "x.jpg" 0 "zip/b.zip" "y.png" 1
    (by decide) (by decide) (by decide) (by decide)
  intro he
  exact absurd (h.1.mp he).1 (by decide)

/-! ### C3: when the model is loaded -/

theorem countP_modelLoad_processEntry (env : Env) (zp : String) (e : Entry) :
    List.countP isModelLoad (processEntry env zp e) = 0 := by
  unfold processEntry
  cases hb : processEntryBody env zp e with
  | error e' => rfl
  | ok evs =>
    unfold processEntryBody at hb
    split at hb
    · cases hb
    · split at hb
      · cases hb
        rfl
      · split at hb
        · cases hb
        · split at hb
          · cases hb
            rfl
          · cases hb
            rw [List.countP_map]
            exact List.countP_eq_zero.2 (fun a _ => Bool.false_ne_true)

theorem countP_modelLoad_archiveEntries (env : Env) (zp : String)
    (entries : List Entry) :
    List.countP isModelLoad (processArchiveEntries env zp entries) = 0 := by
  unfold processArchiveEntries imageEntries
  induction entries with
  | nil => rfl
  | cons e es ih =>
    rw [List.filter_cons]
    split
    · rw [List.flatMap_cons, List.countP_append, ih,
          countP_modelLoad_processEntry]
    · exact ih

/-- C3 (amended): the model is loaded exactly once per archive task — one load
per invocation of `process_zip_archive`, reused across every image of that
archive — so a worker process that is dispatched `k` archives performs `k`
loads, not one. -/
theorem C3_model_load_per_archive (env : Env) (zipPath : String)
    (zd : ZipData) (tasks : List (String × ZipData)) :
    List.countP isModelLoad (process_zip_archive env zipPath zd).1 = 1 ∧
    List.countP isModelLoad (processRunEvents env tasks) = tasks.length := by
  have harch : ∀ (p : String) (z : ZipData),
      List.countP isModelLoad (process_zip_archive env p z).1 = 1 := by
    intro p z
    unfold process_zip_archive archiveBody
    cases z with
    | ok entries =>
      rw [List.countP_cons]
      simp only [countP_modelLoad_archiveEntries]
      rfl
    | badZip => rfl
    | ioError m => rfl
  refine ⟨harch zipPath zd, ?_⟩
  induction tasks with
  | nil => rfl
  | cons t ts ih =>
    unfold processRunEvents at ih ⊢
    rw [List.flatMap_cons, List.countP_append, ih, harch t.1 t.2,
        List.length_cons]
    omega

/-- C3, counterexample: a worker process that is dispatched two archives loads
the detection model twice, not once — the load of line 27 happens on every
call of `process_zip_archive`, not once per process. -/
theorem C3_counterexample :
    List.countP isModelLoad (processRunEvents
      ⟨fun _ => none, fun _ => Except.ok []⟩
      [("zip/a.zip", ZipData.ok []), ("zip/b.zip", ZipData.ok [])]) = 2 ∧
    List.countP isModelLoad (processRunEvents
      ⟨fun _ => none, fun _ => Except.ok []⟩
      [("zip/a.zip", ZipData.ok []), ("zip/b.zip", ZipData.ok [])]) ≠ 1 := by
  refine ⟨by decide, by decide⟩

/-! ### Helper lemmas: event predicates and `enumFrom` -/

@[simp]
theorem isPersonWrite_write (d f : String) (c : Img) :
    isPersonWrite (Event.write d f c) = (d == PERSON_DIR) := rfl

@[simp]
theorem isNoPersonWrite_write (d f : String) (c : Img) :
    isNoPersonWrite (Event.write d f c) = (d == NO_PERSON_DIR) := rfl

@[simp]
theorem beq_noPerson_person : (NO_PERSON_DIR == PERSON_DIR) = false := by
  decide

@[simp]
theorem beq_person_noPerson : (PERSON_DIR == NO_PERSON_DIR) = false := by
  decide

theorem noPerson_ne_person : NO_PERSON_DIR ≠ PERSON_DIR := by decide

theorem enumFrom_length : ∀ (i : Nat) (l : List α),
    (enumFrom i l).length = l.length := by
  intro i l
  induction l generalizing i with
  | nil => rfl
  | cons a as ih => simp [enumFrom, ih]

theorem fst_lt_of_mem_enumFrom :
    ∀ (l : List α) (i : Nat) (p : Nat × α),
      p ∈ enumFrom i l → p.1 < i + l.length := by
  intro l
  induction l with
  | nil =>
    intro i p h
    cases h
  | cons a as ih =>
    intro i p h
    rcases List.mem_cons.1 h with h1 | h2
    · subst h1
      simp
    · have := ih (i + 1) p h2
      simp only [List.length_cons]
      omega

/-- The per-entry trace when reading, decoding and inference all succeed. -/
theorem processEntry_eq_of_ok (env : Env) (zp : String) (e : Entry)
    (bytes : List Nat) (img : Img) (boxes : List Box)
    (hr : e.readResult = Except.ok bytes)
    (hd : env.decode bytes = some img)
    (ht : env.detect img = Except.ok boxes) :
    processEntry env zp e =
      match boxes with
      | [] => [Event.write NO_PERSON_DIR (noPersonFilename zp e.name) img]
      | _ => (enumFrom 0 boxes).map (fun ib =>
          Event.write PERSON_DIR (personFilename zp e.name ib.1)
            (crop img ib.2)) := by
  unfold processEntry processEntryBody
  simp only [hr, hd, ht]
  cases boxes <;> rfl

theorem countP_person_enumMap (zp nm : String) (img : Img) :
    ∀ (i : Nat) (l : List Box),
      List.countP isPersonWrite ((enumFrom i l).map (fun ib =>
        Event.write PERSON_DIR (personFilename zp nm ib.1) (crop img ib.2))) =
        l.length := by
  intro i l
  induction l generalizing i with
  | nil => rfl
  | cons b bs ih =>
    simp [enumFrom, List.countP_cons, ih]

theorem countP_noPerson_enumMap (zp nm : String) (img : Img) :
    ∀ (i : Nat) (l : List Box),
      List.countP isNoPersonWrite ((enumFrom i l).map (fun ib =>
        Event.write PERSON_DIR (personFilename zp nm ib.1) (crop img ib.2))) =
        0 := by
  intro i l
  induction l generalizing i with
  | nil => rfl
  | cons b bs ih =>
    simp [enumFrom, List.countP_cons, ih]

/-- The pixel of a crop at `(r, c)` is the source pixel at
`(y1 + r, x1 + c)`, for indices inside the crop rectangle. -/
theorem crop_pixel (img : Img) (b : Box) (r c : Nat)
    (hrow : r < b.y2 - b.y1) (hcol : c < b.x2 - b.x1) :
    ((crop img b)[r]?.bind (fun row => row[c]?)) =
      (img[b.y1 + r]?.bind (fun row => row[b.x1 + c]?)) := by
  unfold crop
  rw [List.getElem?_map, List.getElem?_take, if_pos hrow, List.getElem?_drop]
  cases h : img[b.y1 + r]? with
  | none => rfl
  | some row =>
    simp only [Option.map_some', Option.some_bind]
    rw [List.getElem?_take, if_pos hcol, List.getElem?_drop]

/-! ### C1: exactly one of the two outcomes per well-processed entry -/

/-- C1: for an entry that reads, decodes and infers without exception, the
worker produces exactly one of the two outcomes — one person-crop write per
detected box (at least one) and no whole-image write when the detector
returns boxes, and exactly one whole-image write and no crop write when it
returns none.  Never both, never neither. -/
theorem C1_exactly_one_outcome (env : Env) (zp : String) (e : Entry)
    (bytes : List Nat) (img : Img) (boxes : List Box)
    (hr : e.readResult = Except.ok bytes)
    (hd : env.decode bytes = some img)
    (ht : env.detect img = Except.ok boxes) :
    (boxes ≠ [] →
      List.countP isPersonWrite (processEntry env zp e) = boxes.length ∧
      1 ≤ List.countP isPersonWrite (processEntry env zp e) ∧
      List.countP isNoPersonWrite (processEntry env zp e) = 0) ∧
    (boxes = [] →
      List.countP isPersonWrite (processEntry env zp e) = 0 ∧
      List.countP isNoPersonWrite (processEntry env zp e) = 1) := by
  rw [processEntry_eq_of_ok env zp e bytes img boxes hr hd ht]
  cases boxes with
  | nil =>
    refine ⟨fun h => absurd rfl h, fun _ => ⟨?_, ?_⟩⟩ <;>
      simp [List.countP_cons]
  | cons b bs =>
    refine ⟨fun _ => ⟨?_, ?_, ?_⟩, fun h => by cases h⟩
    · exact countP_person_enumMap zp e.name img 0 (b :: bs)
    · rw [countP_person_enumMap zp e.name img 0 (b :: bs)]
      simp
    · exact countP_noPerson_enumMap zp e.name img 0 (b :: bs)

/-- Witness for `C1_exactly_one_outcome`: one detected box yields exactly one
person-crop write and no whole-image write. -/
theorem C1_exactly_one_outcome_witness :
    List.countP isPersonWrite (processEntry
      ⟨fun _ => some [[5]], fun _ => Except.ok [⟨0, 0, 1, 1⟩]⟩
      "zip/a.zip" ⟨"x.jpg", Except.ok []⟩) = 1 ∧
    List.countP isNoPersonWrite (processEntry
      ⟨fun _ => some [[5]], fun _ => Except.ok [⟨0, 0, 1, 1⟩]⟩
      "zip/a.zip" ⟨"x.jpg", Except.ok []⟩) = 0 := by
  have h := C1_exactly_one_outcome
    ⟨fun _ => some [[5]], fun _ => Except.ok [⟨0, 0, 1, 1⟩]⟩
    "zip/a.zip" ⟨"x.jpg", Except.ok []⟩ [] [[5]] [⟨0, 0, 1, 1⟩] rfl rfl rfl
  obtain ⟨hp, _, hnp⟩ := h.1 (by decide)
  exact ⟨hp, hnp⟩

/-! ### C4: crop contents and routing -/

/-- C4: with boxes returned, the worker writes, for each box in enumeration
order, a numbered file into the Person directory whose content is the decoded
buffer cropped to the box's integer bounds (pixel `(r, c)` of the crop is
pixel `(y1 + r, x1 + c)` of the buffer); with zero boxes it writes exactly
the whole unmodified buffer as one file into the No_Person directory. -/
theorem C4_crop_and_route (env : Env) (zp : String) (e : Entry)
    (bytes : List Nat) (img : Img) (boxes : List Box)
    (hr : e.readResult = Except.ok bytes)
    (hd : env.decode bytes = some img)
    (ht : env.detect img = Except.ok boxes) :
    (processEntry env zp e =
      match boxes with
      | [] => [Event.write NO_PERSON_DIR (noPersonFilename zp e.name) img]
      | _ => (enumFrom 0 boxes).map (fun ib =>
          Event.write PERSON_DIR (personFilename zp e.name ib.1)
            (crop img ib.2))) ∧
    (∀ (b : Box) (r c : Nat), r < b.y2 - b.y1 → c < b.x2 - b.x1 →
      ((crop img b)[r]?.bind (fun row => row[c]?)) =
        (img[b.y1 + r]?.bind (fun row => row[b.x1 + c]?))) :=
  ⟨processEntry_eq_of_ok env zp e bytes img boxes hr hd ht,
   fun b r c hrow hcol => crop_pixel img b r c hrow hcol⟩

/-- Witness for `C4_crop_and_route` on a concrete 2x2 image with one box. -/
theorem C4_crop_and_route_witness :
    processEntry ⟨fun _ => some [[1, 2], [3, 4]],
        fun _ => Except.ok [⟨0, 0, 1, 2⟩]⟩
      "zip/a.zip" ⟨"x.png", Except.ok []⟩ =
      (enumFrom 0 [(⟨0, 0, 1, 2⟩ : Box)]).map (fun ib =>
        Event.write PERSON_DIR (personFilename "zip/a.zip" "x.png" ib.1)
          (crop [[1, 2], [3, 4]] ib.2)) :=
  (C4_crop_and_route ⟨fun _ => some [[1, 2], [3, 4]],
      fun _ => Except.ok [⟨0, 0, 1, 2⟩]⟩
    "zip/a.zip" ⟨"x.png", Except.ok []⟩ [] [[1, 2], [3, 4]]
    [⟨0, 0, 1, 2⟩] rfl rfl rfl).1

/-! ### C10: output filename extensions -/

/-- C10: every person-crop write uses a name built from the entry's
extension-stripped basename and ending in `.jpg`, whatever the source
extension was; every whole-image write keeps the entry's full basename,
extension included. -/
theorem C10_output_extensions (env : Env) (zp : String) (e : Entry)
    (bytes : List Nat) (img : Img) (boxes : List Box)
    (hr : e.readResult = Except.ok bytes)
    (hd : env.decode bytes = some img)
    (ht : env.detect img = Except.ok boxes) :
    ∀ d f c, Event.write d f c ∈ processEntry env zp e →
      (d = PERSON_DIR →
        (∃ i, i < boxes.length ∧ f = personFilename zp e.name i) ∧
        ∃ t, t ++ ".jpg".data = f.data) ∧
      (d = NO_PERSON_DIR →
        f = noPersonFilename zp e.name ∧
        f.data = zipStemChars zp ++ '_' :: basenameChars e.name.data) := by
  rw [processEntry_eq_of_ok env zp e bytes img boxes hr hd ht]
  intro d f c hmem
  cases boxes with
  | nil =>
    rw [List.mem_singleton] at hmem
    injection hmem with h1 h2 h3
    constructor
    · intro hd'
      exact absurd (h1.symm.trans hd') noPerson_ne_person
    · intro _
      exact ⟨h2, by rw [h2]; rfl⟩
  | cons b bs =>
    rw [List.mem_map] at hmem
    obtain ⟨ib, hib, heq⟩ := hmem
    injection heq with h1 h2 h3
    constructor
    · intro _
      refine ⟨⟨ib.1, ?_, h2.symm⟩, ?_⟩
      · have := fst_lt_of_mem_enumFrom (b :: bs) 0 ib hib
        omega
      · refine ⟨zipStemChars zp ++ '_' ::
          (stemChars (basenameChars e.name.data) ++ '_' ::
            ("person_".data ++ natDigits ib.1)), ?_⟩
        rw [← h2]
        unfold personFilename
        simp [List.append_assoc]
    · intro hd'
      exact absurd (h1.trans hd') (fun h => noPerson_ne_person h.symm)

/-- Witness for `C10_output_extensions`: the crop of a `.png` entry is
written with a `.jpg` name. -/
theorem C10_output_extensions_witness :
    ∃ t, t ++ ".jpg".data = (personFilename "zip/a.zip" "x.png" 0).data := by
  have h := C10_output_extensions
    ⟨fun _ => some [[1]], fun _ => Except.ok [⟨0, 0, 1, 1⟩]⟩
    "zip/a.zip" ⟨"x.png", Except.ok []⟩ [] [[1]] [⟨0, 0, 1, 1⟩] rfl rfl rfl
  exact (h PERSON_DIR (personFilename "zip/a.zip" "x.png" 0)
    (crop [[1]] ⟨0, 0, 1, 1⟩) (by decide)).1 rfl |>.2

/-! ### C5: corrupt archives -/

/-- C5: a corrupt or unreadable archive yields a trace with zero file writes
and exactly one error log, the worker returns normally, and the surrounding
run still processes every other archive of the batch unchanged. -/
theorem C5_corrupt_archive (env : Env) (p m : String)
    (ts1 ts2 : List (String × ZipData)) :
    (process_zip_archive env p ZipData.badZip).1 =
      [Event.modelLoad, Event.logError (badZipMsg p)] ∧
    List.countP isWriteEvent (process_zip_archive env p ZipData.badZip).1 = 0 ∧
    List.countP isErrorLog (process_zip_archive env p ZipData.badZip).1 = 1 ∧
    List.countP isWriteEvent
      (process_zip_archive env p (ZipData.ioError m)).1 = 0 ∧
    List.countP isErrorLog
      (process_zip_archive env p (ZipData.ioError m)).1 = 1 ∧
    processRunEvents env (ts1 ++ (p, ZipData.badZip) :: ts2) =
      processRunEvents env ts1 ++
        (process_zip_archive env p ZipData.badZip).1 ++
          processRunEvents env ts2 := by
  refine ⟨rfl, rfl, rfl, rfl, rfl, ?_⟩
  unfold processRunEvents
  rw [List.flatMap_append, List.flatMap_cons, List.append_assoc]

/-! ### C6: per-entry decode failures -/

/-- C6: an image entry whose bytes fail to decode produces zero file writes
and exactly one warning log, and the rest of the archive's entries still
produce their own traces unchanged. -/
theorem C6_decode_failure (env : Env) (zp nm : String) (bytes : List Nat)
    (es1 es2 : List Entry)
    (himg : isImageName nm = true)
    (hdec : env.decode bytes = none) :
    processEntry env zp ⟨nm, Except.ok bytes⟩ =
      [Event.logWarning (decodeFailMsg nm zp)] ∧
    List.countP isWriteEvent
      (processEntry env zp ⟨nm, Except.ok bytes⟩) = 0 ∧
    List.countP isWarningLog
      (processEntry env zp ⟨nm, Except.ok bytes⟩) = 1 ∧
    processArchiveEntries env zp (es1 ++ ⟨nm, Except.ok bytes⟩ :: es2) =
      processArchiveEntries env zp es1 ++
        Event.logWarning (decodeFailMsg nm zp) ::
          processArchiveEntries env zp es2 := by
  have hpe : processEntry env zp ⟨nm, Except.ok bytes⟩ =
      [Event.logWarning (decodeFailMsg nm zp)] := by
    unfold processEntry processEntryBody
    simp only [hdec]
  refine ⟨hpe, by rw [hpe]; rfl, by rw [hpe]; rfl, ?_⟩
  unfold processArchiveEntries imageEntries
  rw [List.filter_append, List.filter_cons]
  simp only [himg, if_pos]
  rw [List.flatMap_append, List.flatMap_cons, hpe]
  rfl

/-- Witness for `C6_decode_failure` with a decoder that always fails. -/
theorem C6_decode_failure_witness :
    processEntry ⟨fun _ => none, fun _ => Except.ok []⟩ "zip/a.zip"
      ⟨"x.jpg", Except.ok []⟩ =
      [Event.logWarning (decodeFailMsg "x.jpg" "zip/a.zip")] :=
  (C6_decode_failure ⟨fun _ => none, fun _ => Except.ok []⟩ "zip/a.zip"
    "x.jpg" [] [] [] (by decide) rfl).1

/-! ### C9: only image-named entries are processed -/

/-- C9: an entry whose lowercased name does not end in `.png`, `.jpg` or
`.jpeg` contributes nothing at all to the archive's trace — removing it
changes nothing — while an entry that passes the filter contributes exactly
its own per-entry trace, in place. -/
theorem C9_extension_filter (env : Env) (zp : String) (e : Entry)
    (es1 es2 : List Entry) :
    (isImageName e.name = false →
      processArchiveEntries env zp (es1 ++ e :: es2) =
        processArchiveEntries env zp (es1 ++ es2)) ∧
    (isImageName e.name = true →
      processArchiveEntries env zp (es1 ++ e :: es2) =
        processArchiveEntries env zp es1 ++ processEntry env zp e ++
          processArchiveEntries env zp es2) := by
  constructor
  · intro h
    unfold processArchiveEntries imageEntries
    rw [List.filter_append, List.filter_cons, List.filter_append]
    simp only [h]
    rfl
  · intro h
    unfold processArchiveEntries imageEntries
    rw [List.filter_append, List.filter_cons]
    simp only [h, if_pos]
    rw [List.flatMap_append, List.flatMap_cons, List.append_assoc]

/-- Witness for `C9_extension_filter`: a `.txt` entry leaves the trace of the
archive unchanged. -/
theorem C9_extension_filter_witness :
    processArchiveEntries ⟨fun _ => none, fun _ => Except.ok []⟩ "zip/a.zip"
      ([] ++ Entry.mk "notes.txt" (Except.ok []) ::
        [Entry.mk "x.jpg" (Except.ok [])]) =
      processArchiveEntries ⟨fun _ => none, fun _ => Except.ok []⟩ "zip/a.zip"
        ([] ++ [Entry.mk "x.jpg" (Except.ok [])]) :=
  (C9_extension_filter ⟨fun _ => none, fun _ => Except.ok []⟩ "zip/a.zip"
    (Entry.mk "notes.txt" (Except.ok [])) []
    [Entry.mk "x.jpg" (Except.ok [])]).1 (by decide)

/-! ### C7: no failure escalates out of the run -/

theorem poolMapE_ok (env : Env) :
    ∀ (l : List (String × ZipData)),
      poolMapE env l =
        Except.ok (l.map (fun t => (process_zip_archive env t.1 t.2).1)) := by
  intro l
  induction l with
  | nil => rfl
  | cons t ts ih =>
    unfold poolMapE
    rw [ih]
    rfl

/-- C7: the pipeline always returns normally — `mainE` never yields an
uncaught exception and the exit status is 0 for every input, the empty input
directory only logs one error, and an entry whose processing raises is
replaced by a single error log while every sibling entry's trace is
unchanged. -/
theorem C7_no_escalation (env : Env) (tasks : List (String × ZipData))
    (zp msg : String) (e : Entry) (es1 es2 : List Entry)
    (himg : isImageName e.name = true)
    (herr : processEntryBody env zp e = Except.error msg) :
    (∃ evs, mainE env tasks = Except.ok evs) ∧
    exitCode env tasks = 0 ∧
    (tasks = [] → mainEvents env tasks =
      [Event.logInfo "Creating output directories...",
       Event.logError noZipMsg]) ∧
    processArchiveEntries env zp (es1 ++ e :: es2) =
      processArchiveEntries env zp es1 ++
        Event.logError (entryErrMsg e.name zp msg) ::
          processArchiveEntries env zp es2 := by
  have hok : ∃ evs, mainE env tasks = Except.ok evs := by
    unfold mainE
    split
    · exact ⟨_, rfl⟩
    · rw [poolMapE_ok env tasks]
      exact ⟨_, rfl⟩
  refine ⟨hok, ?_, ?_, ?_⟩
  · obtain ⟨evs, hevs⟩ := hok
    unfold exitCode
    rw [hevs]
  · intro h
    subst h
    rfl
  · have hpe : processEntry env zp e =
        [Event.logError (entryErrMsg e.name zp msg)] := by
      unfold processEntry
      rw [herr]
    unfold processArchiveEntries imageEntries
    rw [List.filter_append, List.filter_cons]
    simp only [himg, if_pos]
    rw [List.flatMap_append, List.flatMap_cons, hpe]
    rfl

/-- Witness for `C7_no_escalation`: a detector that always raises still
leaves the exit status at 0. -/
theorem C7_no_escalation_witness :
    exitCode ⟨fun _ => some [[0]], fun _ => Except.error "boom"⟩
      [("zip/a.zip", ZipData.ok [⟨"x.jpg", Except.ok []⟩])] = 0 :=
  (C7_no_escalation ⟨fun _ => some [[0]], fun _ => Except.error "boom"⟩
    [("zip/a.zip", ZipData.ok [⟨"x.jpg", Except.ok []⟩])]
    "zip/a.zip" "boom" ⟨"x.jpg", Except.ok []⟩ [] []
    (by decide) rfl).2.1

/-! ### C8: a second identical run changes nothing -/

theorem applyWrites_lastW :
    ∀ (ws : List (String × Img)) (fs : FS) (k : String),
      applyWrites fs ws k =
        match lastW ws k with
        | some c => some c
        | none => fs k := by
  intro ws
  induction ws with
  | nil => intro fs k; rfl
  | cons w rest ih =>
    intro fs k
    show applyWrites (applyWrite fs w) rest k = _
    rw [ih (applyWrite fs w) k]
    cases h : lastW rest k with
    | some c => simp [lastW, h]
    | none =>
      simp only [lastW, h, applyWrite]
      by_cases hk : k = w.1 <;> simp [hk]

theorem applyWrites_idem (fs : FS) (ws : List (String × Img)) :
    applyWrites (applyWrites fs ws) ws = applyWrites fs ws := by
  funext k
  rw [applyWrites_lastW, applyWrites_lastW]
  cases h : lastW ws k <;> rfl

/-- C8: the writes of a run are a deterministic function of the inputs and
the model outputs, and replaying the same write list over the filesystem a
run already produced leaves it unchanged — a second identical run overwrites
each output file with itself and creates nothing new. -/
theorem C8_rerun_idempotent (env : Env) (tasks : List (String × ZipData))
    (fs : FS) :
    applyWrites (applyWrites fs (writesOf (mainEvents env tasks)))
        (writesOf (mainEvents env tasks)) =
      applyWrites fs (writesOf (mainEvents env tasks)) :=
  applyWrites_idem fs (writesOf (mainEvents env tasks))
